import Mathlib

/-!
# SSCMA-Micro: USB-serial transport (`SerialEsp`) and WE2 device identity

A shallow embedding of `porting/espressif/el_serial_esp.cpp` and of
`_device_id_from_flash` from `porting/himax/we2/el_device_we2.cpp`.

* Bytes and `char`s are natural numbers; `size_t` arithmetic wraps modulo `SIZE_MOD`.
* The vendor driver is a record of functions over an abstract driver state `D`.
* Every call that leaves the transport (driver, ring buffer, mutex, `fsync`) is appended
  to a log, so that statements about *which* calls were made can be expressed.
* Loops take a fuel argument bounding the number of loop-body executions.
* `_rb_rx` is a pointer: null, pointing to a live ring buffer, or dangling after `delete`.
-/

namespace edgelab

/-- Modulus of `size_t` arithmetic on the 32-bit target. -/
def SIZE_MOD : Nat := 4294967296

/-- The error codes of `el_err_code_t` that `SerialEsp` returns. -/
inductive el_err_code_t where
  | EL_OK
  | EL_EIO
  | EL_EPERM
  deriving DecidableEq, Repr

open el_err_code_t

/-- Modelled from the spec: the class `lwRingBuffer` is not among the sources. A fixed-capacity
byte FIFO; `data` holds the valid bytes, oldest first. -/
structure lwRingBuffer where
  capacity : Nat
  data : List Nat
  deriving DecidableEq, Repr

/-- Modelled from the spec: `new lwRingBuffer{size}` creates an empty buffer of the given
capacity. -/
def lwRingBuffer.create (size : Nat) : lwRingBuffer := ⟨size, []⟩

/-- Modelled from the spec: `put(data, length)` appends up to `length` bytes; when the free
space is smaller only as many bytes as fit are written. -/
def lwRingBuffer.put (rb : lwRingBuffer) (src : List Nat) (length : Nat) : lwRingBuffer :=
  ⟨rb.capacity, rb.data ++ (src.take length).take (rb.capacity - rb.data.length)⟩

/-- Modelled from the spec: `extract(delimiter, outBuffer, outCapacity)` scans the buffered
bytes in FIFO order for the first `delimiter`. Found at offset `k`: `k+1` bytes are copied to
`outBuffer`, truncated to `outCapacity - 1`, a terminator is written, the line is removed and
the number of copied bytes is returned. Not found: returns 0 and leaves everything untouched. -/
def lwRingBuffer.extract (rb : lwRingBuffer) (delim : Nat) (out : List Nat) (size : Nat) :
    Nat × List Nat × lwRingBuffer :=
  let k := rb.data.indexOf delim
  if k < rb.data.length then
    let n := min (k + 1) (size - 1)
    (n, rb.data.take n ++ [0] ++ out.drop (n + 1), ⟨rb.capacity, rb.data.drop (k + 1)⟩)
  else
    (0, out, rb)

/-- The fields of `usb_serial_jtag_driver_config_t` (both `uint32_t`). -/
structure usb_serial_jtag_driver_config_t where
  tx_buffer_size : Nat
  rx_buffer_size : Nat
  deriving DecidableEq, Repr

/-- The vendor driver and RTOS constants `SerialEsp` is linked against, over driver state `D`.
`install` and `uninstall` give whether the call returned `ESP_OK`; a read gives the bytes it
delivered (its return value is their number); a write gives its return value. -/
structure Driver (D : Type) where
  usb_serial_jtag_driver_install : usb_serial_jtag_driver_config_t → D → Bool × D
  usb_serial_jtag_is_connected : D → Bool × D
  usb_serial_jtag_driver_uninstall : D → Bool × D
  usb_serial_jtag_read_bytes : (length : Nat) → (ticks : Nat) → D → List Nat × D
  usb_serial_jtag_write_bytes : (src : List Nat) → (size : Nat) → (ticks : Nat) → D → Nat × D
  portMAX_DELAY : Nat
  portTICK_PERIOD_MS : Nat

/-- Calls leaving the transport object. -/
inductive Event where
  | driver_install
  | is_connected
  | driver_uninstall
  | read (length ticks : Nat) (got : List Nat)
  | write (src : List Nat) (size ticks : Nat)
  | rb_new (size : Nat)
  | rb_delete
  | rb_put (data : List Nat)
  | rb_extract (delim size : Nat)
  | lock
  | unlock
  | fsync
  deriving DecidableEq, Repr

/-- Everything outside the transport object: the driver state and the log of calls made. -/
structure World (D : Type) where
  driver : D
  log : List Event
  deriving DecidableEq, Repr

/-- Record a call. -/
def World.emit {D : Type} (w : World D) (d : D) (e : Event) : World D := ⟨d, w.log ++ [e]⟩

/-- Undefined behaviour on the ring-buffer pointer. -/
inductive Fault where
  | null_deref
  | use_after_free
  | double_free
  deriving DecidableEq, Repr

/-- Outcome of running an operation: it returns, the fuel did not suffice, or it faulted. -/
inductive Result (α : Type) where
  | done (a : α)
  | out_of_fuel
  | fault (f : Fault)
  deriving DecidableEq, Repr

/-- The pointer member `_rb_rx`. `delete` releases the buffer but keeps the pointer value. -/
inductive RbPtr where
  | null
  | live (rb : lwRingBuffer)
  | freed
  deriving DecidableEq, Repr

/-- The data members of `SerialEsp` (the mutex `_send_lock` appears through `lock`/`unlock`
events). -/
structure SerialEsp where
  _driver_config : usb_serial_jtag_driver_config_t
  _size : Nat
  _rb_rx : RbPtr
  _is_present : Bool
  deriving DecidableEq, Repr

/-- Modelled from the spec: the base class `Transport` is not among the sources; a transport
is not present until `init` has made it so. -/
def Transport._is_present_initial : Bool := false

/-- The constructor `SerialEsp::SerialEsp(driver_config)`: `_size` is the configured
`rx_buffer_size` and `_rb_rx` is `nullptr`. -/
def SerialEsp.construct (driver_config : usb_serial_jtag_driver_config_t) : SerialEsp :=
  ⟨driver_config, driver_config.rx_buffer_size, RbPtr.null, Transport._is_present_initial⟩

/-- The function `std::isprint` in the C locale. -/
def isprint (c : Nat) : Bool := decide (0x20 ≤ c) && decide (c ≤ 0x7e)

/-- The public calls that change the lifecycle state. -/
inductive Call where
  | init
  | deinit
  deriving DecidableEq, Repr

section ops
variable {D : Type} (drv : Driver D)

/-- The method `SerialEsp::init`. -/
def SerialEsp.init (self : SerialEsp) (w : World D) : el_err_code_t × SerialEsp × World D :=
  let r1 := drv.usb_serial_jtag_driver_install self._driver_config w.driver
  let w1 := w.emit r1.2 Event.driver_install
  let self1 : SerialEsp := ⟨self._driver_config, self._size, self._rb_rx, r1.1⟩
  if !self1._is_present then ( EL_EIO, self1, w1) else
  let r2 := drv.usb_serial_jtag_is_connected w1.driver
  let w2 := w1.emit r2.2 Event.is_connected
  let self2 : SerialEsp := ⟨self1._driver_config, self1._size, self1._rb_rx, r2.1⟩
  if !self2._is_present then (EL_EPERM, self2, w2) else
  match self2._rb_rx with
  | RbPtr.null =>
    (EL_OK, ⟨self2._driver_config, self2._size, RbPtr.live (lwRingBuffer.create self2._size),
      self2._is_present⟩, w2.emit w2.driver (Event.rb_new self2._size))
  | _ => (EL_OK, self2, w2)

/-- The method `SerialEsp::deinit`. `delete` of a null pointer does nothing, of a live buffer releases
it and leaves the pointer dangling, of a dangling pointer is a double free. -/
def SerialEsp.deinit (self : SerialEsp) (w : World D) :
    Result (el_err_code_t × SerialEsp × World D) :=
  let r := drv.usb_serial_jtag_driver_uninstall w.driver
  let w1 := w.emit r.2 Event.driver_uninstall
  let present := !r.1
  let code := if !present then EL_OK else  EL_EIO
  match self._rb_rx with
  | RbPtr.null => Result.done (code, ⟨self._driver_config, self._size, RbPtr.null, present⟩, w1)
  | RbPtr.live _ =>
    Result.done (code, ⟨self._driver_config, self._size, RbPtr.freed, present⟩,
      w1.emit w1.driver Event.rb_delete)
  | RbPtr.freed => Result.fault Fault.double_free

/-- The retry loop of `SerialEsp::get_char`: read one byte until a read returns non-zero. -/
def SerialEsp.get_char_loop : Nat → World D → Result (Nat × World D)
  | 0, _ => Result.out_of_fuel
  | fuel + 1, w =>
    let r := drv.usb_serial_jtag_read_bytes 1 drv.portMAX_DELAY w.driver
    let w1 := w.emit r.2 (Event.read 1 drv.portMAX_DELAY r.1)
    match r.1 with
    | [] => SerialEsp.get_char_loop fuel w1
    | c :: _ => Result.done (c, w1)

/-- The method `SerialEsp::get_char`. -/
def SerialEsp.get_char (fuel : Nat) (self : SerialEsp) (w : World D) : Result (Nat × World D) :=
  if !self._is_present then Result.done (0, w) else
  SerialEsp.get_char_loop drv fuel w

/-- The `while (size)` loop of `SerialEsp::send_bytes`. -/
def SerialEsp.send_bytes_loop (tx_buffer_size : Nat) (buffer : List Nat) :
    Nat → (size sent pos_of_bytes : Nat) → World D → Result (Nat × World D)
  | 0, size, sent, _, w => if size = 0 then Result.done (sent, w) else Result.out_of_fuel
  | fuel + 1, size, sent, pos_of_bytes, w =>
    if size = 0 then Result.done (sent, w) else
    let bytes_to_send := if size < tx_buffer_size then size else tx_buffer_size
    let src := (buffer.drop pos_of_bytes).take bytes_to_send
    let r := drv.usb_serial_jtag_write_bytes src bytes_to_send drv.portMAX_DELAY w.driver
    let w1 := w.emit r.2 (Event.write src bytes_to_send drv.portMAX_DELAY)
    SerialEsp.send_bytes_loop tx_buffer_size buffer fuel (size - bytes_to_send)
      ((sent + r.1) % SIZE_MOD) ((pos_of_bytes + bytes_to_send) % SIZE_MOD) w1

/-- The method `SerialEsp::send_bytes`. -/
def SerialEsp.send_bytes (fuel : Nat) (self : SerialEsp) (buffer : List Nat) (size : Nat)
    (w : World D) : Result (Nat × World D) :=
  if !self._is_present then Result.done (0, w) else
  match SerialEsp.send_bytes_loop drv self._driver_config.tx_buffer_size buffer fuel size 0 0
      (w.emit w.driver Event.lock) with
  | Result.done (sent, w1) =>
    Result.done (sent, (w1.emit w1.driver Event.fsync).emit w1.driver Event.unlock)
  | Result.out_of_fuel => Result.out_of_fuel
  | Result.fault f => Result.fault f

/-- The `while (size)` loop of `SerialEsp::read_bytes`; the bytes a read delivers are stored
at `buffer + pos_of_bytes`. -/
def SerialEsp.read_bytes_loop (rx_buffer_size : Nat) :
    Nat → (size read pos_of_bytes : Nat) → List Nat → World D →
      Result (Nat × List Nat × World D)
  | 0, size, read, _, buffer, w =>
    if size = 0 then Result.done (read, buffer, w) else Result.out_of_fuel
  | fuel + 1, size, read, pos_of_bytes, buffer, w =>
    if size = 0 then Result.done (read, buffer, w) else
    let bytes_to_read := if size < rx_buffer_size then size else rx_buffer_size
    let r := drv.usb_serial_jtag_read_bytes bytes_to_read drv.portMAX_DELAY w.driver
    let w1 := w.emit r.2 (Event.read bytes_to_read drv.portMAX_DELAY r.1)
    let buffer1 := buffer.take pos_of_bytes ++ r.1 ++ buffer.drop (pos_of_bytes + r.1.length)
    SerialEsp.read_bytes_loop rx_buffer_size fuel (size - bytes_to_read)
      ((read + r.1.length) % SIZE_MOD) ((pos_of_bytes + bytes_to_read) % SIZE_MOD) buffer1 w1

/-- The method `SerialEsp::read_bytes`. -/
def SerialEsp.read_bytes (fuel : Nat) (self : SerialEsp) (buffer : List Nat) (size : Nat)
    (w : World D) : Result (Nat × List Nat × World D) :=
  if !self._is_present then Result.done (0, buffer, w) else
  SerialEsp.read_bytes_loop drv self._driver_config.rx_buffer_size fuel size 0 0 buffer w

/-- The `do ... while (rlen > 0)` loop of `SerialEsp::get_line`: poll up to 32 bytes into
`rbuf` and put the first `rlen` bytes of `rbuf` into the ring buffer. -/
def SerialEsp.get_line_loop : Nat → (rbuf : List Nat) → lwRingBuffer → World D →
    Result (lwRingBuffer × World D)
  | 0, _, _, _ => Result.out_of_fuel
  | fuel + 1, rbuf, rb, w =>
    let r := drv.usb_serial_jtag_read_bytes 32 (1 / drv.portTICK_PERIOD_MS) w.driver
    let rlen := r.1.length
    let rbuf1 := r.1 ++ rbuf.drop rlen
    let w1 := w.emit r.2 (Event.read 32 (1 / drv.portTICK_PERIOD_MS) r.1)
    let rb1 := rb.put rbuf1 rlen
    let w2 := w1.emit w1.driver (Event.rb_put (rbuf1.take rlen))
    if rlen > 0 then SerialEsp.get_line_loop fuel rbuf1 rb1 w2 else Result.done (rb1, w2)

/-- The method `SerialEsp::get_line`; returns the count, the caller's buffer and the new states. -/
def SerialEsp.get_line (fuel : Nat) (self : SerialEsp) (buffer : List Nat) (size : Nat)
    (delim : Nat) (w : World D) : Result (Nat × List Nat × SerialEsp × World D) :=
  if !self._is_present then Result.done (0, buffer, self, w) else
  match self._rb_rx with
  | RbPtr.null => Result.fault Fault.null_deref
  | RbPtr.freed => Result.fault Fault.use_after_free
  | RbPtr.live rb =>
    match SerialEsp.get_line_loop drv fuel (List.replicate 32 0) rb w with
    | Result.done (rb1, w1) =>
      let x := rb1.extract delim buffer size
      Result.done (x.1, x.2.1,
        ⟨self._driver_config, self._size, RbPtr.live x.2.2, self._is_present⟩,
        w1.emit w1.driver (Event.rb_extract delim size))
    | Result.out_of_fuel => Result.out_of_fuel
    | Result.fault f => Result.fault f

/-- The method `SerialEsp::echo`. -/
def SerialEsp.echo (fuel : Nat) (self : SerialEsp) (only_visible : Bool) (w : World D) :
    Result (Nat × World D) :=
  if !self._is_present then Result.done (0, w) else
  match SerialEsp.get_char drv fuel self w with
  | Result.done (c, w1) =>
    if only_visible && !isprint c then Result.done (c, w1) else
    match SerialEsp.send_bytes drv fuel self [c] 1 w1 with
    | Result.done (_, w2) => Result.done (c, w2)
    | Result.out_of_fuel => Result.out_of_fuel
    | Result.fault f => Result.fault f
  | Result.out_of_fuel => Result.out_of_fuel
  | Result.fault f => Result.fault f

/-- The transport and the world after `SerialEsp(driver_config)` followed by `n` calls of
`init`. -/
def SerialEsp.after_inits (driver_config : usb_serial_jtag_driver_config_t) (w : World D) :
    Nat → SerialEsp × World D
  | 0 => (SerialEsp.construct driver_config, w)
  | n + 1 =>
    let p := SerialEsp.after_inits driver_config w n
    (SerialEsp.init drv p.1 p.2).2

/-- The results of `n` successive polls as `get_line` issues them (32 bytes, a wait of
`1 / portTICK_PERIOD_MS` ticks), starting from driver state `d`. -/
def SerialEsp.polls : Nat → D → List (List Nat)
  | 0, _ => []
  | n + 1, d =>
    let r := drv.usb_serial_jtag_read_bytes 32 (1 / drv.portTICK_PERIOD_MS) d
    r.1 :: SerialEsp.polls n r.2

/-- A sequence of `init` and `deinit` calls on one transport (return codes dropped). -/
def SerialEsp.run_calls : List Call → SerialEsp → World D → Result (SerialEsp × World D)
  | [], self, w => Result.done (self, w)
  | Call.init :: cs, self, w =>
    let r := SerialEsp.init drv self w
    SerialEsp.run_calls cs r.2.1 r.2.2
  | Call.deinit :: cs, self, w =>
    match SerialEsp.deinit drv self w with
    | Result.done r => SerialEsp.run_calls cs r.2.1 r.2.2
    | Result.out_of_fuel => Result.out_of_fuel
    | Result.fault f => Result.fault f

end ops

namespace porting

/-- The 16 bytes `memcpy` reads from the memory-mapped flash at `0x3A000000 + 0x003DF000`
into `id_full`; `flash` gives the byte stored at an address. -/
def id_full (flash : Nat → Nat) : List Nat :=
  (List.range 16).map (fun i => flash (0x3A000000 + 0x003DF000 + i) % 256)

/-- The `for (size_t i = 0; i < 16; ++i)` loop of `_device_id_from_flash`, with `n` iterations
left: `hash = hash ^ value; hash *= prime` on `uint32_t`. -/
def hash_loop (id_full : List Nat) (prime : Nat) : (n i hash : Nat) → Nat
  | 0, _, hash => hash
  | n + 1, i, hash =>
    let value := id_full.getD i 0
    hash_loop id_full prime n (i + 1) (((hash ^^^ value) * prime) % 4294967296)

/-- The function `_device_id_from_flash`; the two flags are the results of `_el_flash_init()` and
`_el_flash_enable_xip()`. -/
def _device_id_from_flash (_el_flash_init _el_flash_enable_xip : Bool) (flash : Nat → Nat) :
    Nat :=
  if !_el_flash_init then 0 else
  if !_el_flash_enable_xip then 0 else
  hash_loop (id_full flash) 0x1000193 16 0 0x811c9dc5

/-- The recurrence the specification gives for the device id: `h 0` is the seed and
`h (i+1) = ((h i XOR b i) * prime) mod 2^32`. -/
def fnv_h (b : Nat → Nat) : Nat → Nat
  | 0 => 0x811c9dc5
  | i + 1 => ((fnv_h b i ^^^ b i) * 0x01000193) % 2 ^ 32

end porting

/-! ## Drivers used to exercise the definitions -/

/-- A channel that always transfers what it is asked for: reads deliver `length` bytes `0x41`,
writes accept everything; install, connect and uninstall succeed. -/
def fullDriver : Driver Unit where
  usb_serial_jtag_driver_install := fun _ d => (true, d)
  usb_serial_jtag_is_connected := fun d => (true, d)
  usb_serial_jtag_driver_uninstall := fun d => (true, d)
  usb_serial_jtag_read_bytes := fun length _ d => (List.replicate length 0x41, d)
  usb_serial_jtag_write_bytes := fun _ size _ d => (size, d)
  portMAX_DELAY := 0xffffffff
  portTICK_PERIOD_MS := 10

/-- A channel whose successive reads deliver the scripted chunks (cut to the requested
length), then nothing; everything else succeeds. -/
def scriptedDriver : Driver (List (List Nat)) where
  usb_serial_jtag_driver_install := fun _ d => (true, d)
  usb_serial_jtag_is_connected := fun d => (true, d)
  usb_serial_jtag_driver_uninstall := fun d => (true, d)
  usb_serial_jtag_read_bytes := fun length _ d => ((d.headD []).take length, d.tail)
  usb_serial_jtag_write_bytes := fun _ size _ d => (size, d)
  portMAX_DELAY := 0xffffffff
  portTICK_PERIOD_MS := 10

/-- A channel like `fullDriver` whose uninstall fails. -/
def stuckDriver : Driver Unit where
  usb_serial_jtag_driver_install := fun _ d => (true, d)
  usb_serial_jtag_is_connected := fun d => (true, d)
  usb_serial_jtag_driver_uninstall := fun d => (false, d)
  usb_serial_jtag_read_bytes := fun length _ d => (List.replicate length 0x41, d)
  usb_serial_jtag_write_bytes := fun _ size _ d => (size, d)
  portMAX_DELAY := 0xffffffff
  portTICK_PERIOD_MS := 10

/-! ## Absent transport -/

/-- C3: on a transport whose presence flag is false, `echo` and `get_char` return `'\0'`,
`get_line`, `read_bytes` and `send_bytes` return 0, for every argument and every fuel; none of
them logs a call (no read, write or ring-buffer access, no lock) or changes the driver state,
the caller's buffer or the transport. -/
theorem absent_transport_is_noop {D : Type} (drv : Driver D) (self : SerialEsp) (w : World D)
    (fuel : Nat) (only_visible : Bool) (buffer : List Nat) (size delim : Nat)
    (h : self._is_present = false) :
    SerialEsp.echo drv fuel self only_visible w = Result.done (0, w) ∧
    SerialEsp.get_char drv fuel self w = Result.done (0, w) ∧
    SerialEsp.get_line drv fuel self buffer size delim w = Result.done (0, buffer, self, w) ∧
    SerialEsp.read_bytes drv fuel self buffer size w = Result.done (0, buffer, w) ∧
    SerialEsp.send_bytes drv fuel self buffer size w = Result.done (0, w) := by
  simp [SerialEsp.echo, SerialEsp.get_char, SerialEsp.get_line, SerialEsp.read_bytes,
    SerialEsp.send_bytes, h]

/-- Witness for C3: a freshly constructed transport is absent; every operation is a no-op. -/
theorem absent_transport_is_noop_witness :
    (SerialEsp.construct ⟨4, 4⟩)._is_present = false ∧
    SerialEsp.echo fullDriver 3 (SerialEsp.construct ⟨4, 4⟩) false ⟨(), []⟩
      = Result.done (0, ⟨(), []⟩) ∧
    SerialEsp.send_bytes fullDriver 3 (SerialEsp.construct ⟨4, 4⟩) [1, 2] 2 ⟨(), []⟩
      = Result.done (0, ⟨(), []⟩) :=
  have t := absent_transport_is_noop fullDriver (SerialEsp.construct ⟨4, 4⟩) ⟨(), []⟩ 3 false
    [1, 2] 2 10 rfl
  ⟨rfl, t.1, t.2.2.2.2⟩

/-! ## Device identity -/

/-- The loop started at index `i` with the accumulator `fnv_h b i` ends in `fnv_h b (i + n)`. -/
theorem porting.hash_loop_eq (l : List Nat) (n : Nat) :
    ∀ i, porting.hash_loop l 0x1000193 n i (porting.fnv_h (fun j => l.getD j 0) i)
      = porting.fnv_h (fun j => l.getD j 0) (i + n) := by
  induction n with
  | zero => intro i; rfl
  | succ n ih =>
    intro i
    have e : i + (n + 1) = (i + 1) + n := by omega
    rw [e, ← ih (i + 1)]
    rfl

/-- C7: when flash initialisation and XIP enabling succeed the device id is `h 16` of the
recurrence `h 0 = 0x811c9dc5`, `h (i+1) = ((h i XOR b i) * 0x01000193) mod 2^32` over the 16
bytes `b` read from flash; it is below `2^32`; two flash contents with the same 16-byte block
give the same id; and the id is 0 when flash initialisation or XIP enabling fails. -/
theorem device_id_is_fnv (flash : Nat → Nat) :
    porting._device_id_from_flash true true flash
      = porting.fnv_h (fun i => (porting.id_full flash).getD i 0) 16 ∧
    porting._device_id_from_flash true true flash < 2 ^ 32 ∧
    (∀ flash2 : Nat → Nat, porting.id_full flash2 = porting.id_full flash →
      porting._device_id_from_flash true true flash2
        = porting._device_id_from_flash true true flash) ∧
    (∀ xip : Bool, porting._device_id_from_flash false xip flash = 0) ∧
    porting._device_id_from_flash true false flash = 0 := by
  have main : ∀ f : Nat → Nat, porting._device_id_from_flash true true f
      = porting.fnv_h (fun i => (porting.id_full f).getD i 0) 16 := by
    intro f
    have h := porting.hash_loop_eq (porting.id_full f) 16 0
    simpa [porting._device_id_from_flash, porting.fnv_h] using h
  refine ⟨main flash, ?_, ?_, ?_, ?_⟩
  · rw [main flash]
    show ((_ : Nat) % 2 ^ 32) < 2 ^ 32
    exact Nat.mod_lt _ (by norm_num)
  · intro flash2 h
    rw [main flash2, main flash, h]
  · intro xip
    simp [porting._device_id_from_flash]
  · simp [porting._device_id_from_flash]

/-- Witness for C7: two flash images that differ only outside the 16-byte block give the same
device id. -/
theorem device_id_is_fnv_witness :
    porting.id_full (fun a => if a = 0 then 7 else 1) = porting.id_full (fun _ => 1) ∧
    porting._device_id_from_flash true true (fun a => if a = 0 then 7 else 1)
      = porting._device_id_from_flash true true (fun _ => 1) :=
  have e : porting.id_full (fun a => if a = 0 then 7 else 1) = porting.id_full (fun _ => 1) := by
    decide
  ⟨e, (device_id_is_fnv (fun _ => 1)).2.2.1 (fun a => if a = 0 then 7 else 1) e⟩

/-- The device id of a flash whose block holds the bytes 1, 2, …, 16, computed. -/
theorem device_id_example :
    porting._device_id_from_flash true true (fun a => a - (0x3A000000 + 0x003DF000) + 1)
      = 2928574773 := by
  decide

/-! ## Chunk loops: totals -/

/-- With reads that deliver exactly the requested count and a chunk size of at least 1, the
read loop returns after at most `size` iterations with `size` added to the running total. -/
theorem read_bytes_loop_exact {D : Type} (drv : Driver D) (rx : Nat) (hrx : 1 ≤ rx)
    (hread : ∀ length ticks d, (drv.usb_serial_jtag_read_bytes length ticks d).1.length = length) :
    ∀ (fuel size read pos : Nat) (buffer : List Nat) (w : World D),
      size ≤ fuel → read + size < SIZE_MOD →
      ∃ buf w1, SerialEsp.read_bytes_loop drv rx fuel size read pos buffer w
        = Result.done (read + size, buf, w1) := by
  intro fuel
  induction fuel with
  | zero =>
    intro size read pos buffer w hf _
    have h0 : size = 0 := by omega
    subst h0
    exact ⟨buffer, w, by simp [SerialEsp.read_bytes_loop]⟩
  | succ fuel ih =>
    intro size read pos buffer w hf hlt
    by_cases h0 : size = 0
    · subst h0
      exact ⟨buffer, w, by simp [SerialEsp.read_bytes_loop]⟩
    · simp only [SerialEsp.read_bytes_loop, h0, if_false, hread]
      by_cases hc : size < rx
      · simp only [hc, if_true, Nat.sub_self]
        have hm : (read + size) % SIZE_MOD = read + size := Nat.mod_eq_of_lt hlt
        rw [hm]
        have := ih 0 (read + size) ((pos + size) % SIZE_MOD)
          (List.take pos buffer ++
            (drv.usb_serial_jtag_read_bytes size drv.portMAX_DELAY w.driver).1 ++
            List.drop (pos + size) buffer)
          (w.emit (drv.usb_serial_jtag_read_bytes size drv.portMAX_DELAY w.driver).2
            (Event.read size drv.portMAX_DELAY
              (drv.usb_serial_jtag_read_bytes size drv.portMAX_DELAY w.driver).1))
          (by omega) (by omega)
        simpa using this
      · simp only [hc, if_false]
        have hm : (read + rx) % SIZE_MOD = read + rx := Nat.mod_eq_of_lt (by omega)
        rw [hm]
        have := ih (size - rx) (read + rx) ((pos + rx) % SIZE_MOD)
          (List.take pos buffer ++
            (drv.usb_serial_jtag_read_bytes rx drv.portMAX_DELAY w.driver).1 ++
            List.drop (pos + rx) buffer)
          (w.emit (drv.usb_serial_jtag_read_bytes rx drv.portMAX_DELAY w.driver).2
            (Event.read rx drv.portMAX_DELAY
              (drv.usb_serial_jtag_read_bytes rx drv.portMAX_DELAY w.driver).1))
          (by omega) (by omega)
        have e : read + rx + (size - rx) = read + size := by omega
        rw [e] at this
        exact this

/-- With writes that accept exactly the requested count and a chunk size of at least 1, the
send loop returns after at most `size` iterations with `size` added to the running total. -/
theorem send_bytes_loop_exact {D : Type} (drv : Driver D) (tx : Nat) (htx : 1 ≤ tx)
    (buffer : List Nat)
    (hwrite : ∀ src size ticks d, (drv.usb_serial_jtag_write_bytes src size ticks d).1 = size) :
    ∀ (fuel size sent pos : Nat) (w : World D),
      size ≤ fuel → sent + size < SIZE_MOD →
      ∃ w1, SerialEsp.send_bytes_loop drv tx buffer fuel size sent pos w
        = Result.done (sent + size, w1) := by
  intro fuel
  induction fuel with
  | zero =>
    intro size sent pos w hf _
    have h0 : size = 0 := by omega
    subst h0
    exact ⟨w, by simp [SerialEsp.send_bytes_loop]⟩
  | succ fuel ih =>
    intro size sent pos w hf hlt
    by_cases h0 : size = 0
    · subst h0
      exact ⟨w, by simp [SerialEsp.send_bytes_loop]⟩
    · simp only [SerialEsp.send_bytes_loop, h0, if_false, hwrite]
      by_cases hc : size < tx
      · simp only [hc, if_true, Nat.sub_self]
        have hm : (sent + size) % SIZE_MOD = sent + size := Nat.mod_eq_of_lt hlt
        rw [hm]
        obtain ⟨w1, h1⟩ := ih 0 (sent + size) ((pos + size) % SIZE_MOD)
          (w.emit (drv.usb_serial_jtag_write_bytes (List.take size (List.drop pos buffer)) size
              drv.portMAX_DELAY w.driver).2
            (Event.write (List.take size (List.drop pos buffer)) size drv.portMAX_DELAY))
          (by omega) (by omega)
        exact ⟨w1, by simpa using h1⟩
      · simp only [hc, if_false]
        have hm : (sent + tx) % SIZE_MOD = sent + tx := Nat.mod_eq_of_lt (by omega)
        rw [hm]
        obtain ⟨w1, h1⟩ := ih (size - tx) (sent + tx) ((pos + tx) % SIZE_MOD)
          (w.emit (drv.usb_serial_jtag_write_bytes (List.take tx (List.drop pos buffer)) tx
              drv.portMAX_DELAY w.driver).2
            (Event.write (List.take tx (List.drop pos buffer)) tx drv.portMAX_DELAY))
          (by omega) (by omega)
        have e : sent + tx + (size - tx) = sent + size := by omega
        rw [e] at h1
        exact ⟨w1, h1⟩

/-- C1: on a present transport with `rx_buffer_size ≥ 1` and `tx_buffer_size ≥ 1`, if every
driver read delivers exactly the requested number of bytes and every driver write accepts
exactly the requested number, then for every `size` (a `size_t`) `read_bytes` and `send_bytes`
terminate (any fuel of at least `size` loop iterations suffices) and return exactly `size`. -/
theorem chunk_loops_return_size {D : Type} (drv : Driver D) (self : SerialEsp)
    (buffer : List Nat) (size fuel : Nat) (w : World D)
    (hp : self._is_present = true) (hsize : size < SIZE_MOD) (hfuel : size ≤ fuel)
    (hrx : 1 ≤ self._driver_config.rx_buffer_size)
    (htx : 1 ≤ self._driver_config.tx_buffer_size)
    (hread : ∀ length ticks d, (drv.usb_serial_jtag_read_bytes length ticks d).1.length = length)
    (hwrite : ∀ src size ticks d, (drv.usb_serial_jtag_write_bytes src size ticks d).1 = size) :
    (∃ buf w1, SerialEsp.read_bytes drv fuel self buffer size w = Result.done (size, buf, w1)) ∧
    (∃ w1, SerialEsp.send_bytes drv fuel self buffer size w = Result.done (size, w1)) := by
  constructor
  · obtain ⟨buf, w1, h⟩ := read_bytes_loop_exact drv _ hrx hread fuel size 0 0 buffer w hfuel
      (by omega)
    refine ⟨buf, w1, ?_⟩
    simp only [SerialEsp.read_bytes, hp]
    simpa using h
  · obtain ⟨w1, h⟩ := send_bytes_loop_exact drv _ htx buffer hwrite fuel size 0 0
      (w.emit w.driver Event.lock) hfuel (by omega)
    refine ⟨(w1.emit w1.driver Event.fsync).emit w1.driver Event.unlock, ?_⟩
    simp only [SerialEsp.send_bytes, hp]
    simp only [Nat.zero_add] at h
    simp [h]

/-- Witness for C1: 5 bytes through chunks of 2 on the always-complete channel. -/
theorem chunk_loops_return_size_witness :
    (∃ buf w1, SerialEsp.read_bytes fullDriver 5 ⟨⟨2, 2⟩, 2, RbPtr.null, true⟩ [0, 0, 0, 0, 0] 5
      ⟨(), []⟩ = Result.done (5, buf, w1)) ∧
    (∃ w1, SerialEsp.send_bytes fullDriver 5 ⟨⟨2, 2⟩, 2, RbPtr.null, true⟩ [0, 0, 0, 0, 0] 5
      ⟨(), []⟩ = Result.done (5, w1)) :=
  chunk_loops_return_size fullDriver ⟨⟨2, 2⟩, 2, RbPtr.null, true⟩ [0, 0, 0, 0, 0] 5 5 ⟨(), []⟩
    rfl (by decide) (by decide) (by decide) (by decide) (fun length _ _ => by
      simp [fullDriver]) (fun _ _ _ _ => rfl)

/-! ## Chunk loops: the slices handed to the driver -/

/-- Ceiling division for a chunked transfer: one full chunk less leaves one write less. -/
theorem ceil_div_step (size tx : Nat) (htx : 1 ≤ tx) (h : tx < size) :
    (size + tx - 1) / tx = (size - tx + tx - 1) / tx + 1 := by
  have e : size + tx - 1 = (size - tx + tx - 1) + tx := by omega
  rw [e, Nat.add_div_right _ (by omega : 0 < tx)]

/-- Ceiling division for a transfer that fits one chunk. -/
theorem ceil_div_one (size tx : Nat) (h0 : 1 ≤ size) (h : size ≤ tx) :
    (size + tx - 1) / tx = 1 := by
  have e : size + tx - 1 = (size - 1) + tx := by omega
  rw [e, Nat.add_div_right _ (by omega : 0 < tx), Nat.div_eq_of_lt (by omega)]

/-- The send loop, whatever the driver returns: started at offset `pos` with `size` bytes
left inside the buffer, it returns within `size` iterations, and the writes it logs are the
consecutive slices of `buffer[pos .. pos+size)` of length `min(remaining, tx)`. -/
theorem send_bytes_loop_slices {D : Type} (drv : Driver D) (tx : Nat) (htx : 1 ≤ tx)
    (buffer : List Nat) :
    ∀ (fuel size sent pos : Nat) (w : World D),
      size ≤ fuel → pos + size < SIZE_MOD → pos + size ≤ buffer.length →
      ∃ (sent1 : Nat) (w1 : World D) (ws : List (List Nat)),
        SerialEsp.send_bytes_loop drv tx buffer fuel size sent pos w = Result.done (sent1, w1) ∧
        w1.log = w.log ++ ws.map (fun p => Event.write p p.length drv.portMAX_DELAY) ∧
        ws.flatten = (buffer.drop pos).take size ∧
        (∀ i, i < ws.length →
          ws[i]? = some ((buffer.drop (pos + i * tx)).take (min (size - i * tx) tx))) ∧
        (∀ p ∈ ws, 1 ≤ p.length ∧ p.length ≤ tx) ∧
        ws.length = (size + tx - 1) / tx ∧
        (size = 0 → sent1 = sent) := by
  intro fuel
  induction fuel with
  | zero =>
    intro size sent pos w hf _ _
    have h0 : size = 0 := by omega
    subst h0
    exact ⟨sent, w, [], by simp [SerialEsp.send_bytes_loop], by simp, by simp, by simp, by simp,
      by simp [Nat.div_eq_of_lt (show tx - 1 < tx by omega)], fun _ => rfl⟩
  | succ fuel ih =>
    intro size sent pos w hf hlt hlen
    by_cases h0 : size = 0
    · subst h0
      exact ⟨sent, w, [], by simp [SerialEsp.send_bytes_loop], by simp, by simp, by simp,
        by simp, by simp [Nat.div_eq_of_lt (show tx - 1 < tx by omega)], fun _ => rfl⟩
    · -- one iteration with chunk `b`
      obtain ⟨b, hb, hb1, hbs, hbt, hcase⟩ :
          ∃ b, (if size < tx then size else tx) = b ∧ 1 ≤ b ∧ b ≤ size ∧ b ≤ tx ∧
            (b = size ∨ (b = tx ∧ tx < size)) := by
        by_cases hc : size < tx
        · exact ⟨size, by simp [hc], by omega, le_refl _, by omega, Or.inl rfl⟩
        · by_cases he : size = tx
          · exact ⟨tx, by simp [hc], htx, by omega, le_refl _, Or.inl he.symm⟩
          · exact ⟨tx, by simp [hc], htx, by omega, le_refl _, Or.inr ⟨rfl, by omega⟩⟩
      have hsrc : ((buffer.drop pos).take b).length = b := by
        rw [List.length_take, List.length_drop]; omega
      have hm : (pos + b) % SIZE_MOD = pos + b := Nat.mod_eq_of_lt (by omega)
      obtain ⟨sent1, w1, ws, hrun, hlog, hflat, hidx, hmem, hcount, _⟩ :=
        ih (size - b)
          ((sent + (drv.usb_serial_jtag_write_bytes ((buffer.drop pos).take b) b
            drv.portMAX_DELAY w.driver).1) % SIZE_MOD)
          (pos + b)
          (w.emit (drv.usb_serial_jtag_write_bytes ((buffer.drop pos).take b) b
              drv.portMAX_DELAY w.driver).2
            (Event.write ((buffer.drop pos).take b) b drv.portMAX_DELAY))
          (by omega) (by omega) (by omega)
      refine ⟨sent1, w1, ((buffer.drop pos).take b) :: ws, ?_, ?_, ?_, ?_, ?_, ?_, ?_⟩
      · simp only [SerialEsp.send_bytes_loop, h0, if_false, hb, hm]
        exact hrun
      · rw [hlog]
        simp [World.emit, hsrc]
      · rw [List.flatten_cons, hflat]
        have e : size = b + (size - b) := by omega
        conv_rhs => rw [e, List.take_add, List.drop_drop]
      · intro i hi
        cases i with
        | zero =>
          have e : min size tx = b := by omega
          simp [e]
        | succ i =>
          have hi2 : i < ws.length := by simpa using hi
          have hpos : 0 < ws.length := by omega
          rcases hcase with hbe | ⟨hbe, hlt2⟩
          · -- the chunk took everything: no further write
            exfalso
            rw [hcount, hbe, Nat.sub_self] at hpos
            simp [Nat.div_eq_of_lt (show tx - 1 < tx by omega)] at hpos
          · have := hidx i hi2
            simp only [List.getElem?_cons_succ]
            rw [this, hbe]
            have e1 : pos + tx + i * tx = pos + (i + 1) * tx := by ring
            have e2 : size - tx - i * tx = size - (i + 1) * tx := by
              rw [Nat.sub_sub]; congr 1; ring
            rw [e1, e2]
      · intro p hp
        rcases List.mem_cons.mp hp with rfl | hp
        · rw [hsrc]; exact ⟨hb1, hbt⟩
        · exact hmem p hp
      · rw [List.length_cons, hcount]
        rcases hcase with hbe | ⟨hbe, hlt2⟩
        · rw [hbe, Nat.sub_self, ceil_div_one size tx (by omega) (by omega)]
          simp [Nat.div_eq_of_lt (show tx - 1 < tx by omega)]
        · rw [hbe, ceil_div_step size tx htx hlt2]
      · intro h; exact absurd h h0

/-- C2: for every buffer (its length `size` a `size_t`), every `tx_buffer_size ≥ 1` and every
driver behaviour, `send_bytes` on a present transport returns (any fuel of at least `size`
iterations suffices) and what it logs is: the lock, then the writes `ws`, then `fsync` and the
unlock. The writes are consecutive slices of the buffer, the `i`-th starting at offset
`i * tx_buffer_size` with length `min(remaining, tx_buffer_size)`, each between 1 and
`tx_buffer_size` bytes long; concatenated they are the buffer; there are
`ceil(size / tx_buffer_size)` of them; for `size = 0` there is no write and the result is 0. -/
theorem send_bytes_slices {D : Type} (drv : Driver D) (self : SerialEsp) (buffer : List Nat)
    (fuel : Nat) (w : World D)
    (hp : self._is_present = true) (htx : 1 ≤ self._driver_config.tx_buffer_size)
    (hsize : buffer.length < SIZE_MOD) (hfuel : buffer.length ≤ fuel) :
    ∃ (sent : Nat) (w1 : World D) (ws : List (List Nat)),
      SerialEsp.send_bytes drv fuel self buffer buffer.length w = Result.done (sent, w1) ∧
      w1.log = w.log ++ [Event.lock]
        ++ ws.map (fun p => Event.write p p.length drv.portMAX_DELAY)
        ++ [Event.fsync, Event.unlock] ∧
      ws.flatten = buffer ∧
      (∀ i, i < ws.length →
        ws[i]? = some ((buffer.drop (i * self._driver_config.tx_buffer_size)).take
          (min (buffer.length - i * self._driver_config.tx_buffer_size)
            self._driver_config.tx_buffer_size))) ∧
      (∀ p ∈ ws, 1 ≤ p.length ∧ p.length ≤ self._driver_config.tx_buffer_size) ∧
      ws.length = (buffer.length + self._driver_config.tx_buffer_size - 1)
        / self._driver_config.tx_buffer_size ∧
      (buffer.length = 0 → ws = [] ∧ sent = 0) := by
  obtain ⟨sent1, w1, ws, hrun, hlog, hflat, hidx, hmem, hcount, hzero⟩ :=
    send_bytes_loop_slices drv self._driver_config.tx_buffer_size htx buffer fuel buffer.length
      0 0 (w.emit w.driver Event.lock) hfuel (by omega) (by omega)
  refine ⟨sent1, (w1.emit w1.driver Event.fsync).emit w1.driver Event.unlock, ws, ?_, ?_, ?_,
    ?_, hmem, hcount, ?_⟩
  · simp only [SerialEsp.send_bytes, hp]
    simp [hrun]
  · simp [World.emit, hlog]
  · simpa using hflat
  · intro i hi
    simpa using hidx i hi
  · intro h
    refine ⟨?_, hzero h⟩
    have : ws.length = 0 := by
      rw [hcount, h]
      simp [Nat.div_eq_of_lt (show self._driver_config.tx_buffer_size - 1
        < self._driver_config.tx_buffer_size by omega)]
    exact List.length_eq_zero.mp this

/-- Witness for C2: five bytes with `tx_buffer_size = 2`. -/
theorem send_bytes_slices_witness :
    ∃ (sent : Nat) (w1 : World Unit) (ws : List (List Nat)),
      SerialEsp.send_bytes fullDriver 5 ⟨⟨2, 2⟩, 2, RbPtr.null, true⟩ [1, 2, 3, 4, 5]
        [1, 2, 3, 4, 5].length ⟨(), []⟩ = Result.done (sent, w1) ∧
      w1.log = (⟨(), []⟩ : World Unit).log ++ [Event.lock]
        ++ ws.map (fun p => Event.write p p.length fullDriver.portMAX_DELAY)
        ++ [Event.fsync, Event.unlock] ∧
      ws.flatten = [1, 2, 3, 4, 5] ∧
      (∀ i, i < ws.length →
        ws[i]? = some (([1, 2, 3, 4, 5].drop (i * 2)).take
          (min ([1, 2, 3, 4, 5].length - i * 2) 2))) ∧
      (∀ p ∈ ws, 1 ≤ p.length ∧ p.length ≤ 2) ∧
      ws.length = ([1, 2, 3, 4, 5].length + 2 - 1) / 2 ∧
      ([1, 2, 3, 4, 5].length = 0 → ws = [] ∧ sent = 0) :=
  send_bytes_slices fullDriver ⟨⟨2, 2⟩, 2, RbPtr.null, true⟩ [1, 2, 3, 4, 5] 5 ⟨(), []⟩
    rfl (by decide) (by decide) (by decide)

/-- What `send_bytes` logs for five bytes and `tx_buffer_size = 2`, computed. -/
theorem send_bytes_example :
    SerialEsp.send_bytes fullDriver 5 ⟨⟨2, 2⟩, 2, RbPtr.null, true⟩ [1, 2, 3, 4, 5] 5 ⟨(), []⟩
      = Result.done (5, ⟨(), [Event.lock, Event.write [1, 2] 2 0xffffffff,
          Event.write [3, 4] 2 0xffffffff, Event.write [5] 1 0xffffffff,
          Event.fsync, Event.unlock]⟩) := by
  decide

/-! ## `init` -/

/-- After construction and any number of `init` calls
the configuration and `_size` are those of the constructor, and `_rb_rx` is either null or the
live buffer `init` allocated. -/
theorem after_inits_inv {D : Type} (drv : Driver D) (cfg : usb_serial_jtag_driver_config_t)
    (w0 : World D) (n : Nat) :
    (SerialEsp.after_inits drv cfg w0 n).1._driver_config = cfg ∧
    (SerialEsp.after_inits drv cfg w0 n).1._size = cfg.rx_buffer_size ∧
    ((SerialEsp.after_inits drv cfg w0 n).1._rb_rx = RbPtr.null ∨
      (SerialEsp.after_inits drv cfg w0 n).1._rb_rx
        = RbPtr.live (lwRingBuffer.create cfg.rx_buffer_size)) := by
  induction n with
  | zero => exact ⟨rfl, rfl, Or.inl rfl⟩
  | succ n ih =>
    obtain ⟨h1, h2, h3⟩ := ih
    simp only [SerialEsp.after_inits]
    generalize SerialEsp.after_inits drv cfg w0 n = p at h1 h2 h3
    obtain ⟨s, w⟩ := p
    obtain ⟨c, sz, rb, pr⟩ := s
    simp only at h1 h2 h3
    subst h1 h2
    simp only [SerialEsp.init]
    cases hi : (drv.usb_serial_jtag_driver_install c w.driver).1
    · simp [h3]
    · cases hc : (drv.usb_serial_jtag_is_connected
          (w.emit (drv.usb_serial_jtag_driver_install c w.driver).2
            Event.driver_install).driver).1
      · simp [hc, h3]
      · rcases h3 with h3 | h3 <;> simp [hc, h3]

/-- As long as `deinit` has not been called, `init` does what its contract says: on a
`SerialEsp` that was constructed and then initialised any number of times, for every driver
behaviour, `init` returns `EL_EIO` exactly when the driver install fails, `EL_EPERM` exactly
when the install succeeds and the channel is not connected, `EL_OK` otherwise; the presence
flag afterwards is true exactly when the result is `EL_OK`; and on `EL_OK` the ring-buffer
pointer refers to a live buffer of capacity `rx_buffer_size`, which is allocated by this call
(one `rb_new`) exactly when the pointer was null before and is otherwise the buffer already
held (no allocation). -/
theorem init_result {D : Type} (drv : Driver D) (cfg : usb_serial_jtag_driver_config_t)
    (w0 : World D) (n : Nat) :
    let pre := SerialEsp.after_inits drv cfg w0 n
    let r := SerialEsp.init drv pre.1 pre.2
    let installed := drv.usb_serial_jtag_driver_install cfg pre.2.driver
    let connected := drv.usb_serial_jtag_is_connected installed.2
    (r.1 = EL_EIO ↔ installed.1 = false) ∧
    (r.1 = EL_EPERM ↔ (installed.1 = true ∧ connected.1 = false)) ∧
    (r.1 = EL_OK ↔ (installed.1 = true ∧ connected.1 = true)) ∧
    (r.2.1._is_present = true ↔ r.1 = EL_OK) ∧
    (r.1 = EL_OK →
      (∃ rb, r.2.1._rb_rx = RbPtr.live rb ∧ rb.capacity = cfg.rx_buffer_size) ∧
      (pre.1._rb_rx = RbPtr.null →
        r.2.2.log = pre.2.log ++ [Event.driver_install, Event.is_connected,
          Event.rb_new cfg.rx_buffer_size]) ∧
      (pre.1._rb_rx ≠ RbPtr.null →
        r.2.1._rb_rx = pre.1._rb_rx ∧
        r.2.2.log = pre.2.log ++ [Event.driver_install, Event.is_connected])) := by
  obtain ⟨h1, h2, h3⟩ := after_inits_inv drv cfg w0 n
  dsimp only
  generalize SerialEsp.after_inits drv cfg w0 n = pre at h1 h2 h3 ⊢
  obtain ⟨⟨c, sz, rb, pr⟩, w⟩ := pre
  simp only at h1 h2 h3
  subst h1 h2
  simp only [SerialEsp.init, World.emit]
  cases hi : (drv.usb_serial_jtag_driver_install c w.driver).1
  · simp
  · cases hc : (drv.usb_serial_jtag_is_connected
        (drv.usb_serial_jtag_driver_install c w.driver).2).1
    · simp [hc]
    · rcases h3 with h3 | h3
      · subst h3
        simp [hc, lwRingBuffer.create]
      · subst h3
        simp [hc, lwRingBuffer.create]

/-- The first `init` on a fresh transport with a driver that installs and is connected: the
result is `EL_OK`, the transport is present and owns a new ring buffer of 64 bytes. -/
theorem init_example :
    SerialEsp.init fullDriver (SerialEsp.construct ⟨32, 64⟩) ⟨(), []⟩
      = (EL_OK, ⟨⟨32, 64⟩, 64, RbPtr.live ⟨64, []⟩, true⟩,
          ⟨(), [Event.driver_install, Event.is_connected, Event.rb_new 64]⟩) := by
  decide

/-! ## `get_line` -/

/-- Putting the first `r.length` bytes of a scratch buffer that starts with `r` is putting
`r`. -/
theorem lwRingBuffer.put_prefix (rb : lwRingBuffer) (r rest : List Nat) :
    rb.put (r ++ rest) r.length = rb.put r r.length := by
  simp [lwRingBuffer.put]

/-- Putting zero bytes leaves the ring buffer as it is. -/
theorem lwRingBuffer.put_zero (rb : lwRingBuffer) (src : List Nat) : rb.put src 0 = rb := by
  cases rb
  simp [lwRingBuffer.put]

/-- While the ring buffer has room, a series of puts appends the concatenation of the
chunks. -/
theorem lwRingBuffer.foldl_put_data (rs : List (List Nat)) :
    ∀ rb : lwRingBuffer, rb.data.length + rs.flatten.length ≤ rb.capacity →
      (rs.foldl (fun b r => lwRingBuffer.put b r r.length) rb).data = rb.data ++ rs.flatten ∧
      (rs.foldl (fun b r => lwRingBuffer.put b r r.length) rb).capacity = rb.capacity := by
  induction rs with
  | nil => intro rb _; simp
  | cons r rs ih =>
    intro rb h
    simp only [List.flatten_cons, List.length_append] at h
    have hput : (rb.put r r.length).data = rb.data ++ r := by
      simp only [lwRingBuffer.put, List.take_length]
      rw [List.take_of_length_le (by omega)]
    have hcap : (rb.put r r.length).capacity = rb.capacity := rfl
    obtain ⟨h1, h2⟩ := ih (rb.put r r.length) (by rw [hput, hcap, List.length_append]; omega)
    simp only [List.foldl_cons, List.flatten_cons]
    rw [h1, h2, hput, hcap, List.append_assoc]
    exact ⟨rfl, rfl⟩

/-- Extracting a delimiter that is not buffered returns 0 and changes nothing. -/
theorem lwRingBuffer.extract_absent (rb : lwRingBuffer) (delim : Nat) (out : List Nat)
    (size : Nat) (h : delim ∉ rb.data) : rb.extract delim out size = (0, out, rb) := by
  have hk : ¬ List.indexOf delim rb.data < rb.data.length := by
    rw [List.indexOf_lt_length]; exact h
  simp [lwRingBuffer.extract, hk]

/-- The poll loop of `get_line` on poll results `rs` followed by an empty one: it returns
after `rs.length + 1` iterations, having logged each poll followed by the put of what the
poll delivered, and having put the chunks of `rs` in order. -/
theorem get_line_loop_drains {D : Type} (drv : Driver D) (rs : List (List Nat)) :
    ∀ (fuel : Nat) (rbuf : List Nat) (rb : lwRingBuffer) (w : World D),
      SerialEsp.polls drv (rs.length + 1) w.driver = rs ++ [[]] →
      (∀ r ∈ rs, r ≠ []) →
      rs.length + 1 ≤ fuel →
      ∃ w1 : World D,
        SerialEsp.get_line_loop drv fuel rbuf rb w
          = Result.done (rs.foldl (fun b r => lwRingBuffer.put b r r.length) rb, w1) ∧
        w1.log = w.log ++ ((rs ++ [[]]).map (fun r =>
          [Event.read 32 (1 / drv.portTICK_PERIOD_MS) r, Event.rb_put r])).flatten := by
  induction rs with
  | nil =>
    intro fuel rbuf rb w hp _ hf
    obtain ⟨fuel, rfl⟩ : ∃ f, fuel = f + 1 := ⟨fuel - 1, by simp at hf; omega⟩
    simp only [SerialEsp.polls, List.length_nil, List.nil_append, List.cons.injEq,
      and_true] at hp
    refine ⟨(w.emit (drv.usb_serial_jtag_read_bytes 32 (1 / drv.portTICK_PERIOD_MS) w.driver).2
        (Event.read 32 (1 / drv.portTICK_PERIOD_MS) [])).emit
      (drv.usb_serial_jtag_read_bytes 32 (1 / drv.portTICK_PERIOD_MS) w.driver).2
      (Event.rb_put []), ?_, ?_⟩
    · simp [SerialEsp.get_line_loop, hp, lwRingBuffer.put_zero, World.emit]
    · simp [World.emit]
  | cons r rs ih =>
    intro fuel rbuf rb w hp hne hf
    obtain ⟨fuel, rfl⟩ : ∃ f, fuel = f + 1 := ⟨fuel - 1, by simp at hf; omega⟩
    simp only [List.length_cons, SerialEsp.polls, List.cons_append, List.cons.injEq] at hp
    obtain ⟨hr, hrest⟩ := hp
    have hrne : r ≠ [] := hne r (List.mem_cons_self _ _)
    have hpos : 0 < r.length := List.length_pos.mpr hrne
    obtain ⟨w1, hrun, hlog⟩ := ih fuel (r ++ rbuf.drop r.length) (rb.put r r.length)
      ((w.emit (drv.usb_serial_jtag_read_bytes 32 (1 / drv.portTICK_PERIOD_MS) w.driver).2
          (Event.read 32 (1 / drv.portTICK_PERIOD_MS) r)).emit
        (drv.usb_serial_jtag_read_bytes 32 (1 / drv.portTICK_PERIOD_MS) w.driver).2
        (Event.rb_put r))
      hrest (fun x hx => hne x (List.mem_cons_of_mem _ hx))
      (by simp only [List.length_cons] at hf; omega)
    refine ⟨w1, ?_, ?_⟩
    · simp only [SerialEsp.get_line_loop, hr, gt_iff_lt, hpos, if_true,
        lwRingBuffer.put_prefix, List.take_left, List.foldl_cons]
      exact hrun
    · rw [hlog]
      simp [World.emit]

/-- With a live receive ring buffer: for a present transport whose `_rb_rx` points to the
live ring buffer `rb`, and poll results
`r1..r(k-1)` (non-empty, at most 32 bytes) followed by an empty `rk`, `get_line` returns (any
fuel of at least `k` iterations suffices) after exactly `k` polls of 32 bytes, each followed by
the put of what it delivered, so the ring buffer receives `r1, …, r(k-1)` in arrival order
(their concatenation when there is room); then it makes one `extract(delim, buffer, size)` call
and returns that call's result, which is 0 when the delimiter is not buffered. -/
theorem get_line_drains_then_extracts {D : Type} (drv : Driver D)
    (cfg : usb_serial_jtag_driver_config_t) (sz : Nat) (rb : lwRingBuffer) (w : World D)
    (rs : List (List Nat)) (buffer : List Nat) (size delim fuel : Nat)
    (hpolls : SerialEsp.polls drv (rs.length + 1) w.driver = rs ++ [[]])
    (hrs : ∀ r ∈ rs, r ≠ [] ∧ r.length ≤ 32)
    (hfuel : rs.length + 1 ≤ fuel) :
    ∃ w1 : World D,
      SerialEsp.get_line drv fuel ⟨cfg, sz, RbPtr.live rb, true⟩ buffer size delim w
        = Result.done
          (((rs.foldl (fun b r => lwRingBuffer.put b r r.length) rb).extract delim buffer size).1,
           ((rs.foldl (fun b r => lwRingBuffer.put b r r.length) rb).extract delim buffer
              size).2.1,
           ⟨cfg, sz, RbPtr.live ((rs.foldl (fun b r => lwRingBuffer.put b r r.length)
              rb).extract delim buffer size).2.2, true⟩,
           w1) ∧
      w1.log = w.log
        ++ ((rs ++ [[]]).map (fun r =>
            [Event.read 32 (1 / drv.portTICK_PERIOD_MS) r, Event.rb_put r])).flatten
        ++ [Event.rb_extract delim size] ∧
      (rb.data.length + rs.flatten.length ≤ rb.capacity →
        (rs.foldl (fun b r => lwRingBuffer.put b r r.length) rb).data
          = rb.data ++ rs.flatten) ∧
      (delim ∉ (rs.foldl (fun b r => lwRingBuffer.put b r r.length) rb).data →
        ((rs.foldl (fun b r => lwRingBuffer.put b r r.length) rb).extract delim buffer
          size).1 = 0) := by
  obtain ⟨w1, hrun, hlog⟩ := get_line_loop_drains drv rs fuel (List.replicate 32 0) rb w hpolls
    (fun r hr => (hrs r hr).1) hfuel
  refine ⟨w1.emit w1.driver (Event.rb_extract delim size), ?_, ?_, ?_, ?_⟩
  · simp only [SerialEsp.get_line, hrun]
    simp
  · simp [World.emit, hlog]
  · intro h
    exact (lwRingBuffer.foldl_put_data rs rb h).1
  · intro h
    rw [lwRingBuffer.extract_absent _ _ _ _ h]

/-- With a live ring buffer and a channel that delivers `"hi"`, then `"\n"`, then nothing,
`get_line` returns the line of 3 bytes. -/
theorem get_line_drains_then_extracts_witness :
    SerialEsp.polls scriptedDriver 3 [[0x68, 0x69], [0x0a]] = [[0x68, 0x69], [0x0a]] ++ [[]] ∧
    ∃ w1 : World (List (List Nat)),
      SerialEsp.get_line scriptedDriver 3 ⟨⟨32, 64⟩, 64, RbPtr.live ⟨64, []⟩, true⟩
          [0, 0, 0, 0, 0, 0, 0, 0] 8 0x0a ⟨[[0x68, 0x69], [0x0a]], []⟩
        = Result.done (3, [0x68, 0x69, 0x0a, 0, 0, 0, 0, 0],
            ⟨⟨32, 64⟩, 64, RbPtr.live ⟨64, []⟩, true⟩, w1) ∧
      w1.log = [Event.read 32 0 [0x68, 0x69], Event.rb_put [0x68, 0x69],
        Event.read 32 0 [0x0a], Event.rb_put [0x0a],
        Event.read 32 0 [], Event.rb_put [], Event.rb_extract 0x0a 8] :=
  have hp : SerialEsp.polls scriptedDriver ([[0x68, 0x69], [0x0a]].length + 1)
      (⟨[[0x68, 0x69], [0x0a]], []⟩ : World (List (List Nat))).driver
        = [[0x68, 0x69], [0x0a]] ++ [[]] := by decide
  have t := get_line_drains_then_extracts scriptedDriver ⟨32, 64⟩ 64 ⟨64, []⟩
    ⟨[[0x68, 0x69], [0x0a]], []⟩ [[0x68, 0x69], [0x0a]] [0, 0, 0, 0, 0, 0, 0, 0] 8 0x0a 3 hp
    (by decide) (by decide)
  ⟨by decide, t.elim fun w1 h => ⟨w1, h.1, h.2.1⟩⟩

/-- C6 (evaluated at the failing input): `init`, `deinit`, `init` on a fresh transport leaves
it present with `_rb_rx` pointing to the buffer `deinit` released. The channel then delivers
`"hi"`, `"\n"` and nothing (poll results `r1, r2` non-empty and `r3` empty), but `get_line` does
not put them into a receive ring buffer and return the result of `extract`: whatever the fuel,
it uses the released buffer. -/
theorem get_line_on_released_buffer :
    SerialEsp.run_calls scriptedDriver [Call.init, Call.deinit, Call.init]
        (SerialEsp.construct ⟨32, 64⟩) ⟨[[0x68, 0x69], [0x0a]], []⟩
      = Result.done (⟨⟨32, 64⟩, 64, RbPtr.freed, true⟩,
          ⟨[[0x68, 0x69], [0x0a]], [Event.driver_install, Event.is_connected, Event.rb_new 64,
            Event.driver_uninstall, Event.rb_delete,
            Event.driver_install, Event.is_connected]⟩) ∧
    SerialEsp.polls scriptedDriver 3 [[0x68, 0x69], [0x0a]] = [[0x68, 0x69], [0x0a], []] ∧
    (∀ fuel : Nat,
      SerialEsp.get_line scriptedDriver fuel ⟨⟨32, 64⟩, 64, RbPtr.freed, true⟩
          [0, 0, 0, 0, 0, 0, 0, 0] 8 0x0a
          ⟨[[0x68, 0x69], [0x0a]], [Event.driver_install, Event.is_connected, Event.rb_new 64,
            Event.driver_uninstall, Event.rb_delete,
            Event.driver_install, Event.is_connected]⟩
        = Result.fault Fault.use_after_free) := by
  refine ⟨by decide, by decide, ?_⟩
  intro fuel
  simp [SerialEsp.get_line]

/-! ## `echo` -/

/-- With `tx_buffer_size = 0` the send loop makes no progress on a non-empty transfer: no
amount of fuel lets it return. -/
theorem send_bytes_loop_zero_chunk {D : Type} (drv : Driver D) (buffer : List Nat) :
    ∀ (fuel size sent pos : Nat) (w : World D), size ≠ 0 →
      SerialEsp.send_bytes_loop drv 0 buffer fuel size sent pos w = Result.out_of_fuel := by
  intro fuel
  induction fuel with
  | zero => intro size sent pos w h; simp [SerialEsp.send_bytes_loop, h]
  | succ fuel ih =>
    intro size sent pos w h
    simp only [SerialEsp.send_bytes_loop, h, if_false, Nat.not_lt_zero, Nat.sub_zero]
    exact ih size _ _ _ h

/-- When `get_char` returns, at least one loop iteration was available. -/
theorem get_char_done_fuel {D : Type} (drv : Driver D) (fuel : Nat) (self : SerialEsp)
    (w w1 : World D) (c : Nat) (hp : self._is_present = true)
    (h : SerialEsp.get_char drv fuel self w = Result.done (c, w1)) : 1 ≤ fuel := by
  cases fuel with
  | zero => simp [SerialEsp.get_char, hp, SerialEsp.get_char_loop] at h
  | succ n => omega

/-- One byte through `send_bytes` with `tx_buffer_size ≥ 1`: one write of that byte between
the lock and `fsync`, unlock. -/
theorem send_bytes_single {D : Type} (drv : Driver D) (fuel : Nat) (self : SerialEsp)
    (c : Nat) (w : World D) (hp : self._is_present = true)
    (htx : 1 ≤ self._driver_config.tx_buffer_size) (hf : 1 ≤ fuel) :
    SerialEsp.send_bytes drv fuel self [c] 1 w
      = Result.done ((drv.usb_serial_jtag_write_bytes [c] 1 drv.portMAX_DELAY w.driver).1
          % SIZE_MOD,
        ⟨(drv.usb_serial_jtag_write_bytes [c] 1 drv.portMAX_DELAY w.driver).2,
          w.log ++ [Event.lock, Event.write [c] 1 drv.portMAX_DELAY, Event.fsync,
            Event.unlock]⟩) := by
  obtain ⟨fuel, rfl⟩ : ∃ f, fuel = f + 1 := ⟨fuel - 1, by omega⟩
  have hb : (if 1 < self._driver_config.tx_buffer_size then 1
      else self._driver_config.tx_buffer_size) = 1 := by
    split_ifs <;> omega
  simp only [SerialEsp.send_bytes, hp, SerialEsp.send_bytes_loop, hb]
  cases fuel <;> simp [SerialEsp.send_bytes_loop, World.emit]

/-- C5 (as amended): on a present transport, whenever `get_char` delivers `c`: if
`only_visible` is set and `c` is not printable, `echo` returns `c` and does nothing beyond
`get_char` (no write, no lock); otherwise, provided `tx_buffer_size ≥ 1`, `echo` returns `c`
after one `send_bytes` of the single byte `c`: exactly one driver write, of payload `[c]`. -/
theorem echo_returns_char {D : Type} (drv : Driver D) (fuel : Nat) (self : SerialEsp)
    (only_visible : Bool) (w w1 : World D) (c : Nat)
    (hp : self._is_present = true)
    (hget : SerialEsp.get_char drv fuel self w = Result.done (c, w1))
    (htx : 1 ≤ self._driver_config.tx_buffer_size ∨ (only_visible = true ∧ isprint c = false)) :
    SerialEsp.echo drv fuel self only_visible w
      = Result.done (c,
          if only_visible = true ∧ isprint c = false then w1
          else ⟨(drv.usb_serial_jtag_write_bytes [c] 1 drv.portMAX_DELAY w1.driver).2,
            w1.log ++ [Event.lock, Event.write [c] 1 drv.portMAX_DELAY, Event.fsync,
              Event.unlock]⟩) := by
  have hf := get_char_done_fuel drv fuel self w w1 c hp hget
  by_cases hv : only_visible = true ∧ isprint c = false
  · simp [SerialEsp.echo, hp, hget, hv]
  · have htx1 : 1 ≤ self._driver_config.tx_buffer_size := by
      rcases htx with h | h
      · exact h
      · exact absurd h hv
    have hcond : (only_visible && !isprint c) = false := by
      cases only_visible <;> cases hc : isprint c <;> simp_all
    simp only [SerialEsp.echo, hp, hget, hcond, send_bytes_single drv fuel self c w1 hp htx1 hf]
    simp [hv]

/-- Witness for C5 (as amended): the channel delivers `'A'`, which is echoed by one write. -/
theorem echo_returns_char_witness :
    SerialEsp.get_char scriptedDriver 1 ⟨⟨4, 4⟩, 4, RbPtr.null, true⟩ ⟨[[0x41]], []⟩
      = Result.done (0x41, ⟨[], [Event.read 1 0xffffffff [0x41]]⟩) ∧
    SerialEsp.echo scriptedDriver 1 ⟨⟨4, 4⟩, 4, RbPtr.null, true⟩ true ⟨[[0x41]], []⟩
      = Result.done (0x41, ⟨[], [Event.read 1 0xffffffff [0x41], Event.lock,
          Event.write [0x41] 1 0xffffffff, Event.fsync, Event.unlock]⟩) :=
  ⟨by decide,
   echo_returns_char scriptedDriver 1 ⟨⟨4, 4⟩, 4, RbPtr.null, true⟩ true ⟨[[0x41]], []⟩
    ⟨[], [Event.read 1 0xffffffff [0x41]]⟩ 0x41 rfl (by decide) (Or.inl (by decide))⟩

/-- C5 (as stated) fails: on a present transport with `tx_buffer_size = 0`, `get_char`
delivers `'A'`, but `echo` does not return, whatever the fuel: its `send_bytes` call never
leaves the chunk loop. -/
theorem echo_zero_chunk_never_returns :
    SerialEsp.get_char scriptedDriver 1 ⟨⟨0, 4⟩, 4, RbPtr.null, true⟩ ⟨[[0x41]], []⟩
      = Result.done (0x41, ⟨[], [Event.read 1 0xffffffff [0x41]]⟩) ∧
    (∀ fuel : Nat, ∀ only_visible : Bool,
      SerialEsp.echo scriptedDriver fuel ⟨⟨0, 4⟩, 4, RbPtr.null, true⟩ only_visible
        ⟨[[0x41]], []⟩ = Result.out_of_fuel) := by
  refine ⟨by decide, ?_⟩
  intro fuel only_visible
  cases fuel with
  | zero => simp [SerialEsp.echo, SerialEsp.get_char, SerialEsp.get_char_loop]
  | succ n =>
    have hg : SerialEsp.get_char scriptedDriver (n + 1) ⟨⟨0, 4⟩, 4, RbPtr.null, true⟩
        ⟨[[0x41]], []⟩ = Result.done (0x41, ⟨[], [Event.read 1 0xffffffff [0x41]]⟩) := by
      simp [SerialEsp.get_char, SerialEsp.get_char_loop, scriptedDriver, World.emit]
    have hi : isprint 0x41 = true := by decide
    simp only [SerialEsp.echo, hg, hi, SerialEsp.send_bytes]
    simp [send_bytes_loop_zero_chunk]

/-- The second `init` on a connected channel returns `EL_OK` and keeps the live buffer of
capacity `rx_buffer_size`. -/
theorem init_result_second_call :
    (SerialEsp.init fullDriver (SerialEsp.after_inits fullDriver ⟨32, 64⟩ ⟨(), []⟩ 1).1
      (SerialEsp.after_inits fullDriver ⟨32, 64⟩ ⟨(), []⟩ 1).2).1 = EL_OK ∧
    ∃ rb, (SerialEsp.init fullDriver (SerialEsp.after_inits fullDriver ⟨32, 64⟩ ⟨(), []⟩ 1).1
      (SerialEsp.after_inits fullDriver ⟨32, 64⟩ ⟨(), []⟩ 1).2).2.1._rb_rx = RbPtr.live rb ∧
      rb.capacity = 64 :=
  ⟨by decide, ((init_result fullDriver ⟨32, 64⟩ ⟨(), []⟩ 1).2.2.2.2 (by decide)).1⟩

/-- The return code and the presence flag of `init`, from any state of the transport. -/
theorem init_code {D : Type} (drv : Driver D) (self : SerialEsp) (w : World D) :
    ((SerialEsp.init drv self w).1 = EL_EIO ↔
      (drv.usb_serial_jtag_driver_install self._driver_config w.driver).1 = false) ∧
    ((SerialEsp.init drv self w).1 = EL_EPERM ↔
      ((drv.usb_serial_jtag_driver_install self._driver_config w.driver).1 = true ∧
        (drv.usb_serial_jtag_is_connected
          (drv.usb_serial_jtag_driver_install self._driver_config w.driver).2).1 = false)) ∧
    ((SerialEsp.init drv self w).1 = EL_OK ↔
      ((drv.usb_serial_jtag_driver_install self._driver_config w.driver).1 = true ∧
        (drv.usb_serial_jtag_is_connected
          (drv.usb_serial_jtag_driver_install self._driver_config w.driver).2).1 = true)) ∧
    ((SerialEsp.init drv self w).2.1._is_present = true ↔
      (SerialEsp.init drv self w).1 = EL_OK) := by
  obtain ⟨c, sz, rb, pr⟩ := self
  simp only [SerialEsp.init, World.emit]
  cases hi : (drv.usb_serial_jtag_driver_install c w.driver).1
  · simp
  · cases hc : (drv.usb_serial_jtag_is_connected
        (drv.usb_serial_jtag_driver_install c w.driver).2).1
    · simp [hc]
    · cases rb <;> simp [hc]

/-! ## `deinit` and the ring-buffer pointer -/

/-- The result of `deinit` is `EL_OK` exactly when the uninstall succeeds and `EL_EIO` otherwise,
whenever it returns at all. -/
theorem deinit_code {D : Type} (drv : Driver D) (self : SerialEsp) (w : World D)
    (code : el_err_code_t) (s1 : SerialEsp) (w1 : World D)
    (h : SerialEsp.deinit drv self w = Result.done (code, s1, w1)) :
    (code = EL_OK ↔ (drv.usb_serial_jtag_driver_uninstall w.driver).1 = true) ∧
    (code = EL_EIO ↔ (drv.usb_serial_jtag_driver_uninstall w.driver).1 = false) ∧
    s1._is_present = !(drv.usb_serial_jtag_driver_uninstall w.driver).1 := by
  obtain ⟨c, sz, rb, pr⟩ := self
  cases rb <;> cases hu : (drv.usb_serial_jtag_driver_uninstall w.driver).1 <;>
    simp [SerialEsp.deinit, hu] at h <;> obtain ⟨h1, h2, _⟩ := h <;> subst h1 h2 <;> simp

/-- C4 (evaluated at the failing input): construct, `init`, `deinit` on a driver that always
succeeds leaves `_rb_rx` pointing to the released buffer; the next `init` returns `EL_OK` and
sets the presence flag, but allocates nothing: the transport has no live ring buffer. -/
theorem init_after_deinit_no_buffer :
    SerialEsp.run_calls fullDriver [Call.init, Call.deinit] (SerialEsp.construct ⟨32, 64⟩)
        ⟨(), []⟩
      = Result.done (⟨⟨32, 64⟩, 64, RbPtr.freed, false⟩,
          ⟨(), [Event.driver_install, Event.is_connected, Event.rb_new 64,
            Event.driver_uninstall, Event.rb_delete]⟩) ∧
    SerialEsp.init fullDriver ⟨⟨32, 64⟩, 64, RbPtr.freed, false⟩
        ⟨(), [Event.driver_install, Event.is_connected, Event.rb_new 64,
          Event.driver_uninstall, Event.rb_delete]⟩
      = (EL_OK, ⟨⟨32, 64⟩, 64, RbPtr.freed, true⟩,
          ⟨(), [Event.driver_install, Event.is_connected, Event.rb_new 64,
            Event.driver_uninstall, Event.rb_delete,
            Event.driver_install, Event.is_connected]⟩) ∧
    (∀ rb : lwRingBuffer, RbPtr.freed ≠ RbPtr.live rb) := by
  refine ⟨by decide, by decide, ?_⟩
  intro rb h
  cases h

/-- C8 (evaluated at the failing input): on a transport that was initialised successfully,
the first `deinit` returns `EL_OK`, clears the presence flag and releases the ring buffer but
keeps the pointer; the second `deinit` deletes that released buffer again (a double free)
instead of finding nothing left to release. -/
theorem deinit_twice_double_free :
    SerialEsp.init fullDriver (SerialEsp.construct ⟨32, 64⟩) ⟨(), []⟩
      = (EL_OK, ⟨⟨32, 64⟩, 64, RbPtr.live ⟨64, []⟩, true⟩,
          ⟨(), [Event.driver_install, Event.is_connected, Event.rb_new 64]⟩) ∧
    SerialEsp.deinit fullDriver ⟨⟨32, 64⟩, 64, RbPtr.live ⟨64, []⟩, true⟩
        ⟨(), [Event.driver_install, Event.is_connected, Event.rb_new 64]⟩
      = Result.done (EL_OK, ⟨⟨32, 64⟩, 64, RbPtr.freed, false⟩,
          ⟨(), [Event.driver_install, Event.is_connected, Event.rb_new 64,
            Event.driver_uninstall, Event.rb_delete]⟩) ∧
    SerialEsp.deinit fullDriver ⟨⟨32, 64⟩, 64, RbPtr.freed, false⟩
        ⟨(), [Event.driver_install, Event.is_connected, Event.rb_new 64,
          Event.driver_uninstall, Event.rb_delete]⟩
      = Result.fault Fault.double_free := by
  decide

/-- C9 (evaluated at the failing input): `init`, `deinit`, `init` on a fresh transport with a
driver that always succeeds ends with the presence flag true and `_rb_rx` pointing to the
buffer `deinit` released; `get_line` then uses the released buffer. -/
theorem present_with_released_buffer :
    SerialEsp.run_calls fullDriver [Call.init, Call.deinit, Call.init]
        (SerialEsp.construct ⟨32, 64⟩) ⟨(), []⟩
      = Result.done (⟨⟨32, 64⟩, 64, RbPtr.freed, true⟩,
          ⟨(), [Event.driver_install, Event.is_connected, Event.rb_new 64,
            Event.driver_uninstall, Event.rb_delete,
            Event.driver_install, Event.is_connected]⟩) ∧
    SerialEsp.get_line fullDriver 1 ⟨⟨32, 64⟩, 64, RbPtr.freed, true⟩ [0, 0, 0, 0] 4 0x0a
        ⟨(), [Event.driver_install, Event.is_connected, Event.rb_new 64,
          Event.driver_uninstall, Event.rb_delete,
          Event.driver_install, Event.is_connected]⟩
      = Result.fault Fault.use_after_free := by
  decide

/-- A second way to a present transport without a buffer: when the uninstall fails, `deinit`
sets the presence flag and still releases the buffer; on a fresh transport this gives a
present transport with a null `_rb_rx`. -/
theorem failed_uninstall_marks_present :
    SerialEsp.run_calls stuckDriver [Call.init, Call.deinit]
        (SerialEsp.construct ⟨32, 64⟩) ⟨(), []⟩
      = Result.done (⟨⟨32, 64⟩, 64, RbPtr.freed, true⟩,
          ⟨(), [Event.driver_install, Event.is_connected, Event.rb_new 64,
            Event.driver_uninstall, Event.rb_delete]⟩) ∧
    SerialEsp.run_calls stuckDriver [Call.deinit] (SerialEsp.construct ⟨32, 64⟩) ⟨(), []⟩
      = Result.done (⟨⟨32, 64⟩, 64, RbPtr.null, true⟩, ⟨(), [Event.driver_uninstall]⟩) := by
  decide

/-- While only `init` is called the invariant of C9 does hold: a present transport has a
live ring buffer. -/
theorem present_after_inits_has_buffer {D : Type} (drv : Driver D)
    (cfg : usb_serial_jtag_driver_config_t) (w0 : World D) (n : Nat)
    (h : (SerialEsp.after_inits drv cfg w0 n).1._is_present = true) :
    (SerialEsp.after_inits drv cfg w0 n).1._rb_rx
      = RbPtr.live (lwRingBuffer.create cfg.rx_buffer_size) := by
  cases n with
  | zero =>
    simp [SerialEsp.after_inits, SerialEsp.construct, Transport._is_present_initial] at h
  | succ n =>
    obtain ⟨h1, h2, h3⟩ := after_inits_inv drv cfg w0 n
    simp only [SerialEsp.after_inits] at h ⊢
    generalize SerialEsp.after_inits drv cfg w0 n = p at h h1 h2 h3 ⊢
    obtain ⟨⟨c, sz, rb, pr⟩, w⟩ := p
    simp only at h1 h2 h3
    subst h1 h2
    simp only [SerialEsp.init, World.emit] at h ⊢
    cases hi : (drv.usb_serial_jtag_driver_install c w.driver).1
    · simp [hi] at h
    · cases hc : (drv.usb_serial_jtag_is_connected
          (drv.usb_serial_jtag_driver_install c w.driver).2).1
      · simp [hi, hc] at h
      · rcases h3 with h3 | h3 <;> subst h3 <;> simp [hc]

/-! ## `read_bytes` with short reads -/

/-- Whatever the channel delivers, as long as no read returns more than requested the read
loop returns within `size` iterations and adds at most `size` to the running total. -/
theorem read_bytes_loop_le {D : Type} (drv : Driver D) (rx : Nat) (hrx : 1 ≤ rx)
    (hread : ∀ length ticks d, (drv.usb_serial_jtag_read_bytes length ticks d).1.length ≤ length) :
    ∀ (fuel size read pos : Nat) (buffer : List Nat) (w : World D),
      size ≤ fuel → read + size < SIZE_MOD →
      ∃ n buf w1, SerialEsp.read_bytes_loop drv rx fuel size read pos buffer w
        = Result.done (n, buf, w1) ∧ read ≤ n ∧ n ≤ read + size := by
  intro fuel
  induction fuel with
  | zero =>
    intro size read pos buffer w hf _
    have h0 : size = 0 := by omega
    subst h0
    exact ⟨read, buffer, w, by simp [SerialEsp.read_bytes_loop], le_refl _, le_refl _⟩
  | succ fuel ih =>
    intro size read pos buffer w hf hlt
    by_cases h0 : size = 0
    · subst h0
      exact ⟨read, buffer, w, by simp [SerialEsp.read_bytes_loop], le_refl _, le_refl _⟩
    · obtain ⟨b, hb, hb1, hbs⟩ : ∃ b, (if size < rx then size else rx) = b ∧ 1 ≤ b ∧ b ≤ size := by
        by_cases hc : size < rx
        · exact ⟨size, by simp [hc], by omega, le_refl _⟩
        · exact ⟨rx, by simp [hc], hrx, by omega⟩
      have hg := hread b drv.portMAX_DELAY w.driver
      simp only [SerialEsp.read_bytes_loop, h0, if_false, hb]
      have hm : (read + (drv.usb_serial_jtag_read_bytes b drv.portMAX_DELAY w.driver).1.length)
          % SIZE_MOD
          = read + (drv.usb_serial_jtag_read_bytes b drv.portMAX_DELAY w.driver).1.length :=
        Nat.mod_eq_of_lt (by omega)
      rw [hm]
      obtain ⟨n, buf, w1, hrun, h1, h2⟩ := ih (size - b)
        (read + (drv.usb_serial_jtag_read_bytes b drv.portMAX_DELAY w.driver).1.length)
        ((pos + b) % SIZE_MOD)
        (List.take pos buffer ++ (drv.usb_serial_jtag_read_bytes b drv.portMAX_DELAY w.driver).1
          ++ List.drop
            (pos + (drv.usb_serial_jtag_read_bytes b drv.portMAX_DELAY w.driver).1.length) buffer)
        (w.emit (drv.usb_serial_jtag_read_bytes b drv.portMAX_DELAY w.driver).2
          (Event.read b drv.portMAX_DELAY
            (drv.usb_serial_jtag_read_bytes b drv.portMAX_DELAY w.driver).1))
        (by omega) (by omega)
      exact ⟨n, buf, w1, hrun, by omega, by omega⟩

/-- C10 (evaluated at the failing input): 4 bytes requested with `rx_buffer_size = 2` from a
channel that delivers one byte per read (`0xAA`, then `0xBB`). `read_bytes` returns 2, the sum
of the counts, but the second byte was stored at offset 2: the first two bytes of the caller's
buffer are `0xAA` and the stale `0xEE`, not the two bytes delivered. -/
theorem read_bytes_short_reads_leave_gaps :
    SerialEsp.read_bytes scriptedDriver 4 ⟨⟨2, 2⟩, 2, RbPtr.null, true⟩
        [0xEE, 0xEE, 0xEE, 0xEE] 4 ⟨[[0xAA], [0xBB]], []⟩
      = Result.done (2, [0xAA, 0xEE, 0xBB, 0xEE],
          ⟨[], [Event.read 2 0xffffffff [0xAA], Event.read 2 0xffffffff [0xBB]]⟩) ∧
    List.take 2 [0xAA, 0xEE, 0xBB, 0xEE] ≠ [0xAA, 0xBB] := by
  decide

end edgelab
